import Mathlib

/-!
Shallow embedding of `src/mingus/midi/MidiTrack.py` (mingus MIDI track byte
encoder).  Python byte strings are modelled as `List Nat` (each element one
byte value), Python ints as `Nat` (all values reaching the relevant code are
non-negative), and exceptions as `Except`.  Stateful methods on a `MidiTrack`
object are modelled as functions `MidiTrack → args → Res`, where `Res` carries
on error the state of the object at the moment the exception escaped, because
in Python the mutations performed before the raise persist on the object.
-/

namespace Mingus

/-- Errors the Python code can raise in the embedded fragment:
`invalidRange` is an `AssertionError` from the range asserts in `midi_event`;
`oddLengthHex` is the `binascii`/`TypeError` error `a2b_hex` raises on a
hex string of odd length; `zeroDivision` is Python's `ZeroDivisionError`
(tempo with `bpm = 0`, beat with denominator `0`). -/
inductive MidiErr where
  | invalidRange
  | oddLengthHex
  | zeroDivision
deriving DecidableEq

/-- The mutable state of a `MidiTrack` object: `track_data` and `delta_time`
are byte strings, `delay` and `bpm` integers (class attributes in the source,
behaviourally per-instance since ints/strings are immutable). -/
structure MidiTrack where
  track_data : List Nat
  delta_time : List Nat
  delay : Nat
  bpm : Nat
deriving DecidableEq

deriving instance DecidableEq for Except

/-- Result of a state-mutating method: on error, the exception together with
the state of the object at the time the exception escaped. -/
abbrev Res := Except (MidiErr × MidiTrack) MidiTrack

/-- State of the object after a call, whether or not it raised. -/
def stateOf (r : Res) : MidiTrack :=
  match r with
  | .ok t => t
  | .error (_, t) => t

/-- Base-`b` digits of `n`, least significant first (empty for `n = 0`),
computed with explicit fuel so that the definition is structural and reduces
definitionally.  `lsbDigits` below always supplies sufficient fuel. -/
def digitsLoop (b : Nat) : Nat → Nat → List Nat
  | 0, _ => []
  | _ + 1, 0 => []
  | fuel + 1, n + 1 => (n + 1) % b :: digitsLoop b fuel ((n + 1) / b)

/-- Base-`b` digits of `n`, least significant first; `[]` for `n = 0`. -/
def lsbDigits (b n : Nat) : List Nat := digitsLoop b n n

/-- Python's `"%x" % n`: minimal hex digit string of `n` (most significant
digit first), `"0"` for `n = 0`.  Digits are kept as numbers `0..15`. -/
def hexStr (n : Nat) : List Nat :=
  if n = 0 then [0] else (lsbDigits 16 n).reverse

/-- Python's `"%0kx" % n`: `hexStr n` left-padded with zeros to width `k`
(kept unpadded when already at least `k` digits long). -/
def hexPad (k n : Nat) : List Nat :=
  List.replicate (k - (hexStr n).length) 0 ++ hexStr n

/-- Combine a hex digit string (assumed of even length) into bytes,
high digit of each pair first. -/
def pairUp : List Nat → List Nat
  | a :: b :: rest => (a * 16 + b) :: pairUp rest
  | _ => []

/-- `binascii.a2b_hex`: turns a hex digit string into bytes; raises on a
string of odd length. -/
def a2b_hex (s : List Nat) : Except MidiErr (List Nat) :=
  if s.length % 2 = 0 then .ok (pairUp s) else .error .oddLengthHex

/-- Modelled from the spec: numeric code for a note-off event; the constant
comes from `MidiEvents.py`, which is not under `src/` — the spec fixes
these as the standard MIDI event-type codes. -/
def NOTE_OFF : Nat := 8

/-- Modelled from the spec: note-on event type code (the spec's event-packing
example uses type `9` for note-on). -/
def NOTE_ON : Nat := 9

/-- Modelled from the spec: controller-change event type code. -/
def CONTROLLER : Nat := 11

/-- Modelled from the spec: program-change event type code. -/
def PROGRAM_CHANGE : Nat := 12

/-- Modelled from the spec: the bank-select controller number. -/
def BANK_SELECT : Nat := 0

/-- Modelled from the spec: the 4-byte track-chunk tag, ASCII `MTrk`. -/
def TRACK_HEADER : List Nat := [0x4D, 0x54, 0x72, 0x6B]

/-- Bytes of the end-of-track meta event, `end_of_track` in the source. -/
def end_of_track : List Nat := [0x00, 0xFF, 0x2F, 0x00]

/-- Sets the continuation flag (`| 0x80` in the source) on every byte of the
list but the last.  The bytes it is applied to are 7-bit values (`& 0x7F`
in the source), on which setting the top bit is the same as adding `128`. -/
def set_cont : List Nat → List Nat
  | [] => []
  | [b] => [b]
  | b :: c :: rest => (b + 128) :: set_cont (c :: rest)

/-- `MidiTrack.int_to_varbyte`.  The source computes the byte count as
`int(log(max(value, 1), 128)) + 1`; for the values this development ranges
over the float logarithm is exact, and the count equals the number of
base-128 digits of `max value 1`, which is how it is embedded here (the
bridge lemma `lsbDigits_length_eq_log` relates it to `Nat.log`).  Then the
base-128 digits are produced most-significant first by shifting
(`(value >> (i*7)) & 0x7F`, embedded as `>>> (i*7) % 128`), and the
continuation bit is set on every byte but the last. -/
def int_to_varbyte (value : Nat) : List Nat :=
  let length := (lsbDigits 128 (max value 1)).length
  set_cont (((List.range length).map (fun i => value >>> (i * 7) % 128)).reverse)

/-- Decoder for MIDI variable-length quantities: big-endian base-128 with the
top (continuation) bit of each byte ignored.  Used to state the round-trip
property of the spec. -/
def decode_vlq (l : List Nat) : Nat :=
  l.foldl (fun acc b => acc * 128 + b % 128) 0

/-- Modelled from the spec: the canonical VLQ encoding in the spec's own
words — the base-128 digits of `value` most-significant first, the high bit
set on every digit except the last (here: `+ 128` on the 7-bit digits), and
a single zero byte for `value = 0`. -/
def vlq_canonical (value : Nat) : List Nat :=
  match lsbDigits 128 value with
  | [] => [0]
  | d :: ds => (d :: ds.map (· + 128)).reverse

/-- The hex string `"%02x" % param1` or `"%02x%02x" % (param1, param2)`
used for the parameter bytes of `midi_event`. -/
def paramsHex (param1 : Nat) : Option Nat → List Nat
  | none => hexPad 2 param1
  | some p2 => hexPad 2 param1 ++ hexPad 2 p2

/-- `MidiTrack.midi_event`: asserts `0 ≤ event_type < 128` and
`0 ≤ channel < 16` (the lower bounds are automatic over `Nat`), packs the
status byte with `a2b_hex("%x%x" % (event_type, channel))`, the one or two
parameter bytes with `"%02x"` formatting, and returns the current
`delta_time` followed by status and parameter bytes.  It is a pure
function on the object: it never touches `track_data`. -/
def midi_event (t : MidiTrack) (event_type channel param1 : Nat)
    (param2 : Option Nat) : Except MidiErr (List Nat) :=
  if event_type < 128 ∧ channel < 16 then
    match a2b_hex (hexStr event_type ++ hexStr channel) with
    | .error e => .error e
    | .ok tc =>
      match a2b_hex (paramsHex param1 param2) with
      | .error e => .error e
      | .ok params => .ok (t.delta_time ++ tc ++ params)
  else .error .invalidRange

/-- `MidiTrack.note_off`. -/
def note_off (t : MidiTrack) (channel note velocity : Nat) :
    Except MidiErr (List Nat) :=
  midi_event t NOTE_OFF channel note (some velocity)

/-- `MidiTrack.note_on`. -/
def note_on (t : MidiTrack) (channel note velocity : Nat) :
    Except MidiErr (List Nat) :=
  midi_event t NOTE_ON channel note (some velocity)

/-- `MidiTrack.controller_event`. -/
def controller_event (t : MidiTrack) (channel contr_nr contr_val : Nat) :
    Except MidiErr (List Nat) :=
  midi_event t CONTROLLER channel contr_nr (some contr_val)

/-- `MidiTrack.select_bank`.  Note the source forwards its arguments as
`controller_event(BANK_SELECT, channel, bank)`, so `BANK_SELECT` lands in
the `channel` slot and `channel` in the `contr_nr` slot. -/
def select_bank (t : MidiTrack) (channel bank : Nat) :
    Except MidiErr (List Nat) :=
  controller_event t BANK_SELECT channel bank

/-- `MidiTrack.program_change_event`. -/
def program_change_event (t : MidiTrack) (channel instr : Nat) :
    Except MidiErr (List Nat) :=
  midi_event t PROGRAM_CHANGE channel instr none

/-- A mingus `Note` as this module consumes it: `int(note)` is the pitch
number, and `note.dynamics["velocity"]`, when present, the velocity. -/
structure Note where
  pitch : Nat
  velocity : Option Nat
deriving DecidableEq

/-- Velocity resolution in `play_Note`/`stop_Note`: the `dynamics`
velocity when present, else `64`. -/
def Note.vel (n : Note) : Nat := n.velocity.getD 64

/-- Argument of `set_deltatime`, which in the source accepts either an
integer or an already-encoded variable-length byte string. -/
inductive DeltaArg where
  | int (n : Nat)
  | bytes (b : List Nat)

/-- `MidiTrack.set_deltatime`: an integer argument is VLQ-encoded first,
a byte-string argument is stored as is. -/
def set_deltatime (t : MidiTrack) (d : DeltaArg) : MidiTrack :=
  match d with
  | .int n => { t with delta_time := int_to_varbyte n }
  | .bytes b => { t with delta_time := b }

/-- `MidiTrack.play_Note`: appends a note-on event for the note (pitch
shifted by `+ 12`) to `track_data`.  The bytes are computed before the
append, so a raise leaves this object unchanged. -/
def play_Note (t : MidiTrack) (channel : Nat) (note : Note) : Res :=
  match note_on t channel (note.pitch + 12) note.vel with
  | .error e => .error (e, t)
  | .ok bs => .ok { t with track_data := t.track_data ++ bs }

/-- `MidiTrack.stop_Note`: appends a note-off event for the note. -/
def stop_Note (t : MidiTrack) (channel : Nat) (note : Note) : Res :=
  match note_off t channel (note.pitch + 12) note.vel with
  | .error e => .error (e, t)
  | .ok bs => .ok { t with track_data := t.track_data ++ bs }

/-- The list comprehension `[self.play_Note(channel, x) for x in notes]`:
plays the notes one after the other; an exception stops the iteration and
the appends already performed persist. -/
def play_Notes (t : MidiTrack) (channel : Nat) : List Note → Res
  | [] => .ok t
  | n :: ns =>
    match play_Note t channel n with
    | .error e => .error e
    | .ok t1 => play_Notes t1 channel ns

/-- The corresponding comprehension over `stop_Note`. -/
def stop_Notes (t : MidiTrack) (channel : Nat) : List Note → Res
  | [] => .ok t
  | n :: ns =>
    match stop_Note t channel n with
    | .error e => .error e
    | .ok t1 => stop_Notes t1 channel ns

/-- `MidiTrack.play_NoteContainer`: with at most one note every note is
played as is; with two or more, the first is played with the pending
delta-time, the delta-time is set to `0`, and the rest are played. -/
def play_NoteContainer (t : MidiTrack) (channel : Nat) (nc : List Note) :
    Res :=
  if nc.length ≤ 1 then play_Notes t channel nc
  else
    match nc with
    | [] => play_Notes t channel nc
    | n :: rest =>
      match play_Note t channel n with
      | .error e => .error e
      | .ok t1 => play_Notes (set_deltatime t1 (.int 0)) channel rest

/-- `MidiTrack.stop_NoteContainer`: the note-off mirror of
`play_NoteContainer`. -/
def stop_NoteContainer (t : MidiTrack) (channel : Nat) (nc : List Note) :
    Res :=
  if nc.length ≤ 1 then stop_Notes t channel nc
  else
    match nc with
    | [] => stop_Notes t channel nc
    | n :: rest =>
      match stop_Note t channel n with
      | .error e => .error e
      | .ok t1 => stop_Notes (set_deltatime t1 (.int 0)) channel rest

/-- A beat as `play_Bar` consumes it: `x[0]` is an unused position marker,
`x[1]` the duration denominator, `x[2]` the note container or `None`. -/
abbrev Beat := Nat × Nat × Option (List Note)

/-- The tick count of one beat of denominator `d`:
`int(round(1.0 / d * 288))` in the source.  For positive `d` this is the
integer nearest `288 / d` (halves rounded up, matching Python 2's
round-half-away-from-zero on positives), embedded exactly as
`(576 + d) / (2 * d)`; for the denominators the float expression is exact
at every rounding boundary. -/
def tickOf (d : Nat) : Nat := (576 + d) / (2 * d)

/-- The body of `play_Bar`'s loop for one beat `x`: a zero denominator
raises `ZeroDivisionError`; an absent or empty note group accumulates the
beat's ticks into `delay`; otherwise the pending delay becomes the
delta-time, the delay is reset, the group's note-on events are emitted,
the delta-time is set to the VLQ bytes of the tick count, and the group's
note-off events are emitted. -/
def play_beat (t : MidiTrack) (channel : Nat) (x : Beat) : Res :=
  if x.2.1 = 0 then .error (.zeroDivision, t)
  else
    let tick := tickOf x.2.1
    match x.2.2 with
    | none => .ok { t with delay := t.delay + tick }
    | some nc =>
      if nc.length = 0 then .ok { t with delay := t.delay + tick }
      else
        let t1 := set_deltatime t (.int t.delay)
        let t2 := { t1 with delay := 0 }
        match play_NoteContainer t2 channel nc with
        | .error e => .error e
        | .ok t3 =>
          let t4 := set_deltatime t3 (.bytes (int_to_varbyte tick))
          stop_NoteContainer t4 channel nc

/-- `MidiTrack.play_Bar`: the beats of the bar in order. -/
def play_Bar (t : MidiTrack) (channel : Nat) : List Beat → Res
  | [] => .ok t
  | x :: xs =>
    match play_beat t channel x with
    | .error e => .error e
    | .ok t1 => play_Bar t1 channel xs

/-- `MidiTrack.set_instrument`: appends a bank-select controller event and
then a program-change event, with two separate appends as in the source. -/
def set_instrument (t : MidiTrack) (channel instr bank : Nat) : Res :=
  match select_bank t channel bank with
  | .error e => .error (e, t)
  | .ok b1 =>
    let t1 := { t with track_data := t.track_data ++ b1 }
    match program_change_event t1 channel instr with
    | .error e => .error (e, t1)
    | .ok b2 => .ok { t1 with track_data := t1.track_data ++ b2 }

/-- A mingus `Track` as `play_Track` consumes it: the optional
`instrument.instrument_nr`, and the bars. -/
structure Track where
  instrument : Option Nat
  bars : List (List Beat)

/-- The `for bar in track` loop of `play_Track`. -/
def play_Bars (t : MidiTrack) (channel : Nat) : List (List Beat) → Res
  | [] => .ok t
  | b :: bs =>
    match play_Bar t channel b with
    | .error e => .error e
    | .ok t1 => play_Bars t1 channel bs

/-- `MidiTrack.play_Track`: resets `delay` to `0`, emits the instrument
events when the track's instrument has an `instrument_nr` (the `bank`
argument of `set_instrument` defaults to `1`), then plays every bar in
order. -/
def play_Track (t : MidiTrack) (channel : Nat) (tr : Track) : Res :=
  let t0 := { t with delay := 0 }
  match (match tr.instrument with
    | some nr => set_instrument t0 channel nr 1
    | none => .ok t0) with
  | .error e => .error e
  | .ok t1 => play_Bars t1 channel tr.bars

/-- `MidiTrack.header`: the track-chunk tag followed by the 4-byte length
field `a2b_hex("%08x" % (len(track_data) + len(end_of_track)))`. -/
def header (t : MidiTrack) : Except MidiErr (List Nat) :=
  match a2b_hex (hexPad 8 (t.track_data.length + end_of_track.length)) with
  | .error e => .error e
  | .ok cs => .ok (TRACK_HEADER ++ cs)

/-- `MidiTrack.get_midi_data`: header, body, end-of-track marker. -/
def get_midi_data (t : MidiTrack) : Except MidiErr (List Nat) :=
  match header t with
  | .error e => .error e
  | .ok h => .ok (h ++ t.track_data ++ end_of_track)

/-- `MidiTrack.set_tempo_event`: `delta_time`, the tempo meta tag
`FF 51 03`, and `a2b_hex("%06x" % (60000000 / bpm))` (Python 2 integer
division; `bpm = 0` raises `ZeroDivisionError`). -/
def set_tempo_event (t : MidiTrack) (bpm : Nat) : Except MidiErr (List Nat) :=
  if bpm = 0 then .error .zeroDivision
  else
    match a2b_hex (hexPad 6 (60000000 / bpm)) with
    | .error e => .error e
    | .ok mpqn => .ok (t.delta_time ++ [0xFF, 0x51, 0x03] ++ mpqn)

/-- `MidiTrack.set_tempo`: records `bpm` (before the event is computed, as
in the source) and appends the tempo meta event. -/
def set_tempo (t : MidiTrack) (bpm : Nat) : Res :=
  let t1 := { t with bpm := bpm }
  match set_tempo_event t1 bpm with
  | .error e => .error (e, t1)
  | .ok b => .ok { t1 with track_data := t1.track_data ++ b }

/-- `MidiTrack.__init__`: a fresh object (class-attribute defaults
`track_data = ""`, `delta_time = "\x00"`, `delay = 0`, `bpm = 120`),
whose constructor clears `track_data` and calls `set_tempo(start_bpm)`. -/
def init (start_bpm : Nat) : Res :=
  set_tempo { track_data := [], delta_time := [0], delay := 0, bpm := 120 }
    start_bpm

/-- `MidiTrack.reset`: clears `track_data` and sets `delta_time` back to a
single zero byte. -/
def reset (t : MidiTrack) : MidiTrack :=
  { t with track_data := [], delta_time := [0] }

/-- Expected byte shape of one note-on event: delta-time bytes, the status
byte `NOTE_ON * 16 + channel`, pitch shifted by `+ 12`, velocity. -/
def note_on_bytes (dt : List Nat) (channel : Nat) (n : Note) : List Nat :=
  dt ++ [NOTE_ON * 16 + channel, n.pitch + 12, n.vel]

/-- Expected byte shape of one note-off event. -/
def note_off_bytes (dt : List Nat) (channel : Nat) (n : Note) : List Nat :=
  dt ++ [NOTE_OFF * 16 + channel, n.pitch + 12, n.vel]

/-- Expected note-on bytes of a whole container: the first note carries the
pending delta-time `dt`, every later note delta-time `0`. -/
def container_on_bytes (dt : List Nat) (channel : Nat) :
    List Note → List Nat
  | [] => []
  | [n] => note_on_bytes dt channel n
  | n :: m :: rest =>
    note_on_bytes dt channel n ++
      ((m :: rest).map (note_on_bytes [0] channel)).flatten

/-- Expected note-off bytes of a whole container. -/
def container_off_bytes (dt : List Nat) (channel : Nat) :
    List Note → List Nat
  | [] => []
  | [n] => note_off_bytes dt channel n
  | n :: m :: rest =>
    note_off_bytes dt channel n ++
      ((m :: rest).map (note_off_bytes [0] channel)).flatten

/-- The `delta_time` left behind by a container conversion: containers of
two or more notes reset it to the zero byte, smaller ones leave it as is. -/
def container_dt (dt : List Nat) (nc : List Note) : List Nat :=
  if 2 ≤ nc.length then [0] else dt

/-- All notes of a container have byte-sized event parameters (shifted pitch
and resolved velocity both below 256), so that no hex-packing error can
occur for them. -/
abbrev notesOk (nc : List Note) : Prop :=
  ∀ n ∈ nc, n.pitch + 12 < 256 ∧ n.vel < 256

/-- The byte buffer of one state extends that of another: everything the
first state had is still there, in place, as a prefix. -/
def Extends (t t' : MidiTrack) : Prop :=
  ∃ s, t'.track_data = t.track_data ++ s

/-- The buffer starts with the 7 bytes of the default tempo meta event
emitted at construction with `bpm = 120`: delta-time `00`, tag `FF 51 03`,
and `500000` microseconds per quarter note as `07 A1 20`. -/
abbrev startsWithTempo (l : List Nat) : Prop :=
  l.take 7 = [0x00, 0xFF, 0x51, 0x03, 0x07, 0xA1, 0x20]

/-- Big-endian base-`b` digit list of `n` of a fixed width: `width` digits,
most significant first (leading zeros when `n` is small). -/
def padDigits (b n : Nat) : Nat → List Nat
  | 0 => []
  | k + 1 => n / b ^ k % b :: padDigits b n k

/-! ### Digit machinery -/

theorem digitsLoop_congr (b : Nat) (hb : 2 ≤ b) :
    ∀ fuel fuel' n, n ≤ fuel → n ≤ fuel' →
      digitsLoop b fuel n = digitsLoop b fuel' n := by
  intro fuel
  induction fuel with
  | zero =>
    intro fuel' n hn _
    interval_cases n
    cases fuel' <;> rfl
  | succ fuel ih =>
    intro fuel' n hn hn'
    match n, fuel' with
    | 0, 0 => rfl
    | 0, fuel' + 1 => rfl
    | m + 1, fuel' + 1 =>
      show (m + 1) % b :: digitsLoop b fuel ((m + 1) / b) =
        (m + 1) % b :: digitsLoop b fuel' ((m + 1) / b)
      have hdiv : (m + 1) / b < m + 1 := Nat.div_lt_self (Nat.succ_pos m) hb
      rw [ih fuel' ((m + 1) / b) (by omega) (by omega)]

theorem lsbDigits_zero (b : Nat) : lsbDigits b 0 = [] := rfl

theorem lsbDigits_eq (b n : Nat) (hb : 2 ≤ b) (hn : n ≠ 0) :
    lsbDigits b n = n % b :: lsbDigits b (n / b) := by
  obtain ⟨m, rfl⟩ : ∃ m, n = m + 1 := ⟨n - 1, by omega⟩
  show (m + 1) % b :: digitsLoop b m ((m + 1) / b) = _
  have hdiv : (m + 1) / b < m + 1 := Nat.div_lt_self (Nat.succ_pos m) hb
  rw [digitsLoop_congr b hb m ((m + 1) / b) ((m + 1) / b) (by omega) le_rfl]
  rfl

theorem lsbDigits_lt (b : Nat) (hb : 2 ≤ b) :
    ∀ n, ∀ d ∈ lsbDigits b n, d < b := by
  intro n
  induction n using Nat.strong_induction_on with
  | _ n ih =>
    rcases Nat.eq_zero_or_pos n with rfl | hn
    · simp [lsbDigits_zero]
    · rw [lsbDigits_eq b n hb (by omega)]
      intro d hd
      rcases List.mem_cons.mp hd with rfl | hd
      · exact Nat.mod_lt _ (by omega)
      · exact ih (n / b) (Nat.div_lt_self hn hb) d hd

/-- Bridge to the source's length computation: the number of base-`b`
digits of a positive `n` is `⌊log_b n⌋ + 1`. -/
theorem lsbDigits_length_eq_log (b : Nat) (hb : 2 ≤ b) :
    ∀ n, 1 ≤ n → (lsbDigits b n).length = Nat.log b n + 1 := by
  intro n
  induction n using Nat.strong_induction_on with
  | _ n ih =>
    intro hn
    rw [lsbDigits_eq b n hb (by omega)]
    rcases Nat.lt_or_ge n b with h | h
    · have : n / b = 0 := Nat.div_eq_of_lt h
      rw [this]
      have : Nat.log b n = 0 := by
        rw [Nat.log_eq_zero_iff]; left; exact h
      simp [lsbDigits_zero, this]
    · have h1 : 1 ≤ n / b := (Nat.one_le_div_iff (by omega)).mpr h
      have hlt : n / b < n := Nat.div_lt_self (by omega) hb
      have hlog : 0 < Nat.log b n := Nat.log_pos (by omega) h
      have := Nat.log_div_base b n
      simp only [List.length_cons, ih (n / b) hlt h1, this]
      omega

theorem lsbDigits_range_map (b : Nat) (hb : 2 ≤ b) :
    ∀ n, (List.range (lsbDigits b n).length).map (fun i => n / b ^ i % b)
      = lsbDigits b n := by
  intro n
  induction n using Nat.strong_induction_on with
  | _ n ih =>
    rcases Nat.eq_zero_or_pos n with rfl | hn
    · simp [lsbDigits_zero]
    · rw [lsbDigits_eq b n hb (by omega)]
      have hlt : n / b < n := Nat.div_lt_self hn hb
      have := ih (n / b) hlt
      simp only [List.length_cons, List.range_succ_eq_map, List.map_cons,
        List.map_map]
      congr 1
      · simp
      · have hmap : List.map ((fun i => n / b ^ i % b) ∘ Nat.succ)
            (List.range (lsbDigits b (n / b)).length) =
            List.map (fun i => n / b / b ^ i % b)
            (List.range (lsbDigits b (n / b)).length) := by
          apply List.map_congr_left
          intro i _
          simp only [Function.comp_apply, Nat.succ_eq_add_one]
          rw [pow_succ, Nat.mul_comm (b ^ i) b, ← Nat.div_div_eq_div_mul]
        rw [hmap, this]

/-! ### VLQ encoding -/

theorem set_cont_append (l : List Nat) (a : Nat) :
    set_cont (l ++ [a]) = l.map (· + 128) ++ [a] := by
  induction l with
  | nil => rfl
  | cons b l ih =>
    cases l with
    | nil => rfl
    | cons c l2 =>
      show (b + 128) :: set_cont (c :: l2 ++ [a]) = _
      rw [ih]
      rfl

theorem int_to_varbyte_zero : int_to_varbyte 0 = [0] := rfl

/-- For a positive value, `int_to_varbyte` is `set_cont` applied to the
reversed base-128 digit list. -/
theorem int_to_varbyte_eq (v : Nat) (hv : 1 ≤ v) :
    int_to_varbyte v = set_cont ((lsbDigits 128 v).reverse) := by
  have hmax : max v 1 = v := by omega
  have hshift : (fun i => v >>> (i * 7) % 128) =
      (fun i => v / 128 ^ i % 128) := by
    funext i
    rw [Nat.shiftRight_eq_div_pow]
    congr 2
    rw [Nat.mul_comm i 7, pow_mul]
    norm_num
  show set_cont (((List.range (lsbDigits 128 (max v 1)).length).map
      (fun i => v >>> (i * 7) % 128)).reverse) = _
  rw [hmax, hshift, lsbDigits_range_map 128 (by omega) v]

theorem foldl_decode_lsb (v : Nat) :
    ∀ acc, (lsbDigits 128 v).reverse.foldl
        (fun acc b => acc * 128 + b % 128) acc
      = acc * 128 ^ (lsbDigits 128 v).length + v := by
  induction v using Nat.strong_induction_on with
  | _ v ih =>
    intro acc
    rcases Nat.eq_zero_or_pos v with rfl | hv
    · simp [lsbDigits_zero]
    · rw [lsbDigits_eq 128 v (by omega) (by omega)]
      have hlt : v / 128 < v := Nat.div_lt_self hv (by omega)
      simp only [List.reverse_cons, List.foldl_append, List.foldl_cons,
        List.foldl_nil, List.length_cons, ih (v / 128) hlt acc]
      rw [pow_succ]
      have hdm : 128 * (v / 128) + v % 128 = v := Nat.div_add_mod v 128
      calc (acc * 128 ^ (lsbDigits 128 (v / 128)).length + v / 128) * 128 +
            v % 128 % 128
          = acc * (128 ^ (lsbDigits 128 (v / 128)).length * 128) +
            (128 * (v / 128) + v % 128) := by ring_nf; omega
        _ = acc * (128 ^ (lsbDigits 128 (v / 128)).length * 128) + v := by
            rw [hdm]

theorem foldl_decode_set_cont (l : List Nat) :
    ∀ acc, (set_cont l).foldl (fun acc b => acc * 128 + b % 128) acc
      = l.foldl (fun acc b => acc * 128 + b % 128) acc := by
  induction l with
  | nil => intro acc; rfl
  | cons b tl ih =>
    intro acc
    cases tl with
    | nil => rfl
    | cons c tl2 =>
      show ((b + 128) :: set_cont (c :: tl2)).foldl _ acc = _
      simp only [List.foldl_cons, ih]
      have hmod : (b + 128) % 128 = b % 128 := by omega
      rw [hmod]

/-- Decoding inverts encoding, for every value. -/
theorem decode_int_to_varbyte (v : Nat) :
    decode_vlq (int_to_varbyte v) = v := by
  rcases Nat.eq_zero_or_pos v with rfl | hv
  · rfl
  · rw [int_to_varbyte_eq v hv]
    unfold decode_vlq
    rw [foldl_decode_set_cont, foldl_decode_lsb]
    simp

/-- Shape of a positive value's encoding: mapped digits then the last
7-bit digit. -/
theorem int_to_varbyte_shape (v : Nat) (hv : 1 ≤ v) :
    int_to_varbyte v =
      (lsbDigits 128 (v / 128)).reverse.map (· + 128) ++ [v % 128] := by
  rw [int_to_varbyte_eq v hv, lsbDigits_eq 128 v (by omega) (by omega),
    List.reverse_cons, set_cont_append]

/-- The source encoder agrees everywhere with the spec's canonical VLQ
description. -/
theorem int_to_varbyte_eq_canonical (v : Nat) :
    int_to_varbyte v = vlq_canonical v := by
  rcases Nat.eq_zero_or_pos v with rfl | hv
  · rfl
  · have hcan : vlq_canonical v =
        (v % 128 :: (lsbDigits 128 (v / 128)).map (· + 128)).reverse := by
      unfold vlq_canonical
      rw [lsbDigits_eq 128 v (by omega) (by omega)]
    rw [int_to_varbyte_shape v hv, hcan, List.reverse_cons]
    simp [List.map_reverse]

/-- C1.  For every `v` up to `2097151` (the proof in fact covers all `v` for
which the float logarithm length computation is exact, which includes this
range), `int_to_varbyte v` is the canonical MIDI VLQ encoding of `v`:
it equals the spec's canonical digit string, decoding it yields `v` again,
every byte but the last has the continuation bit set (`128 ≤ b < 256`), the
last byte has it clear (`b < 128`), and `v = 0` encodes as the single byte
`0x00`. -/
theorem C1_int_to_varbyte_canonical_vlq (v : Nat) (h : v ≤ 2097151) :
    decode_vlq (int_to_varbyte v) = v ∧
    int_to_varbyte v = vlq_canonical v ∧
    (∀ b ∈ (int_to_varbyte v).dropLast, 128 ≤ b ∧ b < 256) ∧
    (∀ b, (int_to_varbyte v).getLast? = some b → b < 128) ∧
    int_to_varbyte 0 = [0] := by
  refine ⟨decode_int_to_varbyte v, int_to_varbyte_eq_canonical v, ?_, ?_, rfl⟩
  · intro b hb
    rcases Nat.eq_zero_or_pos v with rfl | hv
    · simp [int_to_varbyte_zero] at hb
    · rw [int_to_varbyte_shape v hv] at hb
      rw [List.dropLast_concat] at hb
      rcases List.mem_map.mp hb with ⟨d, hd, rfl⟩
      have : d < 128 :=
        lsbDigits_lt 128 (by omega) (v / 128) d (List.mem_reverse.mp hd)
      omega
  · intro b hb
    rcases Nat.eq_zero_or_pos v with rfl | hv
    · rw [int_to_varbyte_zero] at hb
      simp at hb
      omega
    · rw [int_to_varbyte_shape v hv] at hb
      rw [List.getLast?_concat] at hb
      have : b = v % 128 := by
        injection hb with hb
        omega
      omega

/-- Witness for C1 at concrete inputs. -/
theorem C1_witness :
    decode_vlq (int_to_varbyte 2097151) = 2097151 ∧
    int_to_varbyte 0 = [0] :=
  ⟨(C1_int_to_varbyte_canonical_vlq 2097151 (by omega)).1,
   (C1_int_to_varbyte_canonical_vlq 2097151 (by omega)).2.2.2.2⟩

/-! ### Hex formatting and event packing -/

theorem hexStr_lt16 (n : Nat) (h : n < 16) : hexStr n = [n] := by
  unfold hexStr
  rcases Nat.eq_zero_or_pos n with rfl | hn
  · rfl
  · rw [if_neg (by omega), lsbDigits_eq 16 n (by omega) (by omega),
      Nat.div_eq_of_lt h, lsbDigits_zero, Nat.mod_eq_of_lt h]
    rfl

theorem hexStr_lt256 (n : Nat) (h16 : 16 ≤ n) (h : n < 256) :
    hexStr n = [n / 16, n % 16] := by
  unfold hexStr
  have hq1 : 1 ≤ n / 16 := (Nat.one_le_div_iff (by omega)).mpr h16
  have hq : n / 16 < 16 := by omega
  rw [if_neg (by omega), lsbDigits_eq 16 n (by omega) (by omega),
    lsbDigits_eq 16 (n / 16) (by omega) (by omega),
    Nat.div_eq_of_lt hq, lsbDigits_zero, Nat.mod_eq_of_lt hq]
  rfl

theorem hexPad2_eq (p : Nat) (h : p < 256) : hexPad 2 p = [p / 16, p % 16] := by
  unfold hexPad
  rcases Nat.lt_or_ge p 16 with h16 | h16
  · rw [hexStr_lt16 p h16]
    have : p / 16 = 0 := Nat.div_eq_of_lt h16
    rw [this, Nat.mod_eq_of_lt h16]
    rfl
  · rw [hexStr_lt256 p h16 h]
    rfl

theorem a2b_hex_two (a b : Nat) : a2b_hex [a, b] = .ok [a * 16 + b] := by
  unfold a2b_hex
  norm_num
  rfl

theorem a2b_hex_four (a b c d : Nat) :
    a2b_hex [a, b, c, d] = .ok [a * 16 + b, c * 16 + d] := by
  unfold a2b_hex
  norm_num
  rfl

theorem a2b_hex_odd3 (a b c : Nat) :
    a2b_hex [a, b, c] = .error .oddLengthHex := by
  unfold a2b_hex
  norm_num

theorem paramsHex_none (p1 : Nat) : paramsHex p1 none = hexPad 2 p1 := rfl

theorem paramsHex_some (p1 p2 : Nat) :
    paramsHex p1 (some p2) = hexPad 2 p1 ++ hexPad 2 p2 := rfl

theorem midi_event_ok2 (t : MidiTrack) (et ch p1 p2 : Nat) (het : et < 16)
    (hch : ch < 16) (h1 : p1 < 256) (h2 : p2 < 256) :
    midi_event t et ch p1 (some p2) =
      .ok (t.delta_time ++ [et * 16 + ch, p1, p2]) := by
  unfold midi_event
  rw [if_pos ⟨by omega, hch⟩, hexStr_lt16 et het, hexStr_lt16 ch hch,
    paramsHex_some, hexPad2_eq p1 h1, hexPad2_eq p2 h2]
  simp only [List.singleton_append, List.cons_append, List.nil_append]
  rw [a2b_hex_two, a2b_hex_four]
  have e1 : p1 / 16 * 16 + p1 % 16 = p1 := by omega
  have e2 : p2 / 16 * 16 + p2 % 16 = p2 := by omega
  rw [e1, e2]
  show Except.ok (t.delta_time ++ [et * 16 + ch] ++ [p1, p2]) = _
  rw [List.append_assoc]
  rfl

theorem midi_event_ok1 (t : MidiTrack) (et ch p1 : Nat) (het : et < 16)
    (hch : ch < 16) (h1 : p1 < 256) :
    midi_event t et ch p1 none = .ok (t.delta_time ++ [et * 16 + ch, p1]) := by
  unfold midi_event
  rw [if_pos ⟨by omega, hch⟩, hexStr_lt16 et het, hexStr_lt16 ch hch,
    paramsHex_none, hexPad2_eq p1 h1]
  simp only [List.singleton_append, List.cons_append, List.nil_append]
  rw [a2b_hex_two, a2b_hex_two]
  have e1 : p1 / 16 * 16 + p1 % 16 = p1 := by omega
  rw [e1]
  show Except.ok (t.delta_time ++ [et * 16 + ch] ++ [p1]) = _
  rw [List.append_assoc]
  rfl

/-- With a two-digit event type (`16 ≤ event_type < 128`) and an in-range
channel, the status hex string has three digits and `a2b_hex` raises,
whatever the parameters are. -/
theorem midi_event_odd (t : MidiTrack) (et ch p1 : Nat) (p2 : Option Nat)
    (hlo : 16 ≤ et) (het : et < 128) (hch : ch < 16) :
    midi_event t et ch p1 p2 = .error .oddLengthHex := by
  unfold midi_event
  rw [if_pos ⟨by omega, hch⟩, hexStr_lt256 et hlo (by omega),
    hexStr_lt16 ch hch]
  simp only [List.cons_append, List.singleton_append, List.nil_append]
  rw [a2b_hex_odd3]

theorem a2b_hex_error (s : List Nat) (e : MidiErr)
    (h : a2b_hex s = .error e) : e = .oddLengthHex := by
  unfold a2b_hex at h
  split at h
  · cases h
  · injection h with h
    exact h.symm

/-- The assertion error is raised exactly when the asserted ranges fail. -/
theorem midi_event_invalidRange_iff (t : MidiTrack) (et ch p1 : Nat)
    (p2 : Option Nat) :
    midi_event t et ch p1 p2 = .error .invalidRange ↔
      (128 ≤ et ∨ 16 ≤ ch) := by
  unfold midi_event
  constructor
  · intro h
    by_contra hcon
    push_neg at hcon
    rw [if_pos ⟨by omega, by omega⟩] at h
    split at h
    · rename_i e he
      injection h with h
      cases (a2b_hex_error _ e he).symm.trans h
    · split at h
      · rename_i e he
        injection h with h
        cases (a2b_hex_error _ e he).symm.trans h
      · cases h
  · intro h
    rw [if_neg (by omega)]

/-- C5.  For in-range nibble arguments and byte parameters, `midi_event`
returns the current delta-time bytes, then the status byte packing
`event_type` in the high nibble and `channel` in the low nibble, then the
parameter bytes; in particular with delta-time `00`, event type `9`,
channel `0`, `param1 = 60`, `param2 = 64` it returns `00 90 3C 40`. -/
theorem C5_midi_event_packing (t : MidiTrack) (et ch p1 p2 : Nat)
    (het : et < 16) (hch : ch < 16) (h1 : p1 < 256) (h2 : p2 < 256) :
    midi_event t et ch p1 (some p2) =
      .ok (t.delta_time ++ [et * 16 + ch, p1, p2]) ∧
    midi_event t et ch p1 none = .ok (t.delta_time ++ [et * 16 + ch, p1]) ∧
    midi_event ⟨[], [0x00], 0, 120⟩ 9 0 60 (some 64) =
      .ok [0x00, 0x90, 0x3C, 0x40] :=
  ⟨midi_event_ok2 t et ch p1 p2 het hch h1 h2,
   midi_event_ok1 t et ch p1 het hch h1, rfl⟩

/-- Witness for C5 at a concrete input. -/
theorem C5_witness :
    midi_event ⟨[1], [0x05], 3, 120⟩ 9 2 60 (some 64) =
      .ok ([0x05] ++ [9 * 16 + 2, 60, 64]) :=
  (C5_midi_event_packing ⟨[1], [0x05], 3, 120⟩ 9 2 60 64 (by omega) (by omega)
    (by omega) (by omega)).1

/-- C6 counterexample: `event_type = 16` is inside `[0, 128)` and
`channel = 0` inside `[0, 16)`, with byte-sized `param1`, yet the call does
not complete — the status hex string has odd length and the packing step
raises (a non-assertion error), contradicting the claim that every such
call completes and returns an event. -/
theorem C6_counterexample :
    midi_event ⟨[], [0x00], 0, 120⟩ 16 0 0 none = .error .oddLengthHex ∧
    (16 : Nat) < 128 ∧ (0 : Nat) < 16 ∧ (0 : Nat) < 256 :=
  ⟨rfl, by omega, by omega, by omega⟩

/-- C6 amended.  The `InvalidRange`-class assertion failure occurs exactly
when `event_type` is outside `[0,128)` or `channel` outside `[0,16)`; but a
call completes only when `event_type` is moreover below 16: for
`event_type` in `[16,128)` the assertions pass and the hex packing of the
status byte fails with an odd-length error instead.  `midi_event` never
touches `track_data` in any of these cases, so no appended bytes are
corrupted. -/
theorem C6_midi_event_failure_modes (t : MidiTrack) (et ch p1 : Nat)
    (p2 : Option Nat) :
    (midi_event t et ch p1 p2 = .error .invalidRange ↔
      (128 ≤ et ∨ 16 ≤ ch)) ∧
    (et < 16 → ch < 16 → p1 < 256 → (∀ q ∈ p2, q < 256) →
      ∃ bs, midi_event t et ch p1 p2 = .ok bs) ∧
    (16 ≤ et → et < 128 → ch < 16 →
      midi_event t et ch p1 p2 = .error .oddLengthHex) := by
  refine ⟨midi_event_invalidRange_iff t et ch p1 p2, ?_, ?_⟩
  · intro het hch h1 h2
    cases p2 with
    | none => exact ⟨_, midi_event_ok1 t et ch p1 het hch h1⟩
    | some q =>
      exact ⟨_, midi_event_ok2 t et ch p1 q het hch h1
        (h2 q (Option.mem_some_iff.mpr rfl))⟩
  · intro hlo het hch
    exact midi_event_odd t et ch p1 p2 hlo het hch

/-- Witness for the amended C6 at concrete inputs. -/
theorem C6_witness :
    (∃ bs, midi_event ⟨[], [0x00], 0, 120⟩ 9 0 60 (some 64) = .ok bs) ∧
    midi_event ⟨[], [0x00], 0, 120⟩ 100 5 60 (some 64) =
      .error .oddLengthHex :=
  ⟨(C6_midi_event_failure_modes ⟨[], [0x00], 0, 120⟩ 9 0 60 (some 64)).2.1
      (by omega) (by omega) (by omega)
      (fun q hq => by cases hq; omega),
   (C6_midi_event_failure_modes ⟨[], [0x00], 0, 120⟩ 100 5 60 (some 64)).2.2
      (by omega) (by omega) (by omega)⟩

/-! ### Notes and containers -/

theorem play_Note_ok (t : MidiTrack) (ch : Nat) (n : Note) (hch : ch < 16)
    (hp : n.pitch + 12 < 256) (hv : n.vel < 256) :
    play_Note t ch n =
      .ok { t with track_data := t.track_data ++ note_on_bytes t.delta_time ch n } := by
  unfold play_Note note_on
  rw [midi_event_ok2 t NOTE_ON ch (n.pitch + 12) n.vel (by norm_num [NOTE_ON])
    hch hp hv]
  rfl

theorem stop_Note_ok (t : MidiTrack) (ch : Nat) (n : Note) (hch : ch < 16)
    (hp : n.pitch + 12 < 256) (hv : n.vel < 256) :
    stop_Note t ch n =
      .ok { t with track_data := t.track_data ++ note_off_bytes t.delta_time ch n } := by
  unfold stop_Note note_off
  rw [midi_event_ok2 t NOTE_OFF ch (n.pitch + 12) n.vel (by norm_num [NOTE_OFF])
    hch hp hv]
  rfl

theorem play_Notes_ok (ch : Nat) (hch : ch < 16) :
    ∀ (ns : List Note) (t : MidiTrack), notesOk ns →
      play_Notes t ch ns = .ok { t with
        track_data := t.track_data ++ (ns.map (note_on_bytes t.delta_time ch)).flatten } := by
  intro ns
  induction ns with
  | nil =>
    intro t _
    simp only [List.map_nil, List.flatten_nil, List.append_nil]
    rfl
  | cons n ns ih =>
    intro t hok
    have hn := hok n (List.mem_cons_self n ns)
    show (match play_Note t ch n with
      | .error e => Except.error e
      | .ok t1 => play_Notes t1 ch ns) = _
    rw [play_Note_ok t ch n hch hn.1 hn.2]
    show play_Notes
      { t with track_data := t.track_data ++ note_on_bytes t.delta_time ch n }
      ch ns = _
    rw [ih _ (fun m hm => hok m (List.mem_cons_of_mem n hm))]
    simp [List.append_assoc]

theorem stop_Notes_ok (ch : Nat) (hch : ch < 16) :
    ∀ (ns : List Note) (t : MidiTrack), notesOk ns →
      stop_Notes t ch ns = .ok { t with
        track_data := t.track_data ++ (ns.map (note_off_bytes t.delta_time ch)).flatten } := by
  intro ns
  induction ns with
  | nil =>
    intro t _
    simp only [List.map_nil, List.flatten_nil, List.append_nil]
    rfl
  | cons n ns ih =>
    intro t hok
    have hn := hok n (List.mem_cons_self n ns)
    show (match stop_Note t ch n with
      | .error e => Except.error e
      | .ok t1 => stop_Notes t1 ch ns) = _
    rw [stop_Note_ok t ch n hch hn.1 hn.2]
    show stop_Notes
      { t with track_data := t.track_data ++ note_off_bytes t.delta_time ch n }
      ch ns = _
    rw [ih _ (fun m hm => hok m (List.mem_cons_of_mem n hm))]
    simp [List.append_assoc]

theorem play_NoteContainer_ok (t : MidiTrack) (ch : Nat) (nc : List Note)
    (hch : ch < 16) (hok : notesOk nc) :
    play_NoteContainer t ch nc = .ok { t with
      track_data := t.track_data ++ container_on_bytes t.delta_time ch nc,
      delta_time := container_dt t.delta_time nc } := by
  match nc with
  | [] =>
    show play_Notes t ch [] = _
    simp [play_Notes, container_on_bytes, container_dt]
  | [n] =>
    show play_Notes t ch [n] = _
    rw [play_Notes_ok ch hch [n] t hok]
    simp [container_on_bytes, container_dt, note_on_bytes]
  | n :: m :: rest =>
    show (match play_Note t ch n with
      | .error e => Except.error e
      | .ok t1 => play_Notes (set_deltatime t1 (.int 0)) ch (m :: rest)) = _
    have hn := hok n (List.mem_cons_self n (m :: rest))
    rw [play_Note_ok t ch n hch hn.1 hn.2]
    show play_Notes (set_deltatime _ (.int 0)) ch (m :: rest) = _
    rw [play_Notes_ok ch hch (m :: rest) _
      (fun x hx => hok x (List.mem_cons_of_mem n hx))]
    show Except.ok { t with
      track_data := (t.track_data ++ note_on_bytes t.delta_time ch n) ++
        ((m :: rest).map (note_on_bytes (int_to_varbyte 0) ch)).flatten,
      delta_time := int_to_varbyte 0 } = _
    rw [int_to_varbyte_zero]
    have hdt : container_dt t.delta_time (n :: m :: rest) = [0] := by
      unfold container_dt
      rw [if_pos (by simp)]
    rw [hdt]
    show _ = Except.ok { t with
      track_data := t.track_data ++ (note_on_bytes t.delta_time ch n ++
        ((m :: rest).map (note_on_bytes [0] ch)).flatten),
      delta_time := [0] }
    rw [List.append_assoc]

theorem stop_NoteContainer_ok (t : MidiTrack) (ch : Nat) (nc : List Note)
    (hch : ch < 16) (hok : notesOk nc) :
    stop_NoteContainer t ch nc = .ok { t with
      track_data := t.track_data ++ container_off_bytes t.delta_time ch nc,
      delta_time := container_dt t.delta_time nc } := by
  match nc with
  | [] =>
    show stop_Notes t ch [] = _
    simp [stop_Notes, container_off_bytes, container_dt]
  | [n] =>
    show stop_Notes t ch [n] = _
    rw [stop_Notes_ok ch hch [n] t hok]
    simp [container_off_bytes, container_dt, note_off_bytes]
  | n :: m :: rest =>
    show (match stop_Note t ch n with
      | .error e => Except.error e
      | .ok t1 => stop_Notes (set_deltatime t1 (.int 0)) ch (m :: rest)) = _
    have hn := hok n (List.mem_cons_self n (m :: rest))
    rw [stop_Note_ok t ch n hch hn.1 hn.2]
    show stop_Notes (set_deltatime _ (.int 0)) ch (m :: rest) = _
    rw [stop_Notes_ok ch hch (m :: rest) _
      (fun x hx => hok x (List.mem_cons_of_mem n hx))]
    show Except.ok { t with
      track_data := (t.track_data ++ note_off_bytes t.delta_time ch n) ++
        ((m :: rest).map (note_off_bytes (int_to_varbyte 0) ch)).flatten,
      delta_time := int_to_varbyte 0 } = _
    rw [int_to_varbyte_zero]
    have hdt : container_dt t.delta_time (n :: m :: rest) = [0] := by
      unfold container_dt
      rw [if_pos (by simp)]
    rw [hdt]
    show _ = Except.ok { t with
      track_data := t.track_data ++ (note_off_bytes t.delta_time ch n ++
        ((m :: rest).map (note_off_bytes [0] ch)).flatten),
      delta_time := [0] }
    rw [List.append_assoc]

/-- C2.  With in-range channel and note parameters: an empty container is a
no-op for both passes; a single note is emitted with the pending delta-time
(which is left unchanged); with two or more notes the first note is emitted
with the pending delta-time and every later note with delta-time `0`,
whatever the order of the notes — symmetrically for the note-on pass
(`play_NoteContainer`) and the note-off pass (`stop_NoteContainer`). -/
theorem C2_note_container_deltatime (t : MidiTrack) (ch : Nat)
    (n : Note) (rest : List Note) (hch : ch < 16) :
    (play_NoteContainer t ch [] = .ok t ∧
     stop_NoteContainer t ch [] = .ok t) ∧
    (notesOk [n] →
      play_NoteContainer t ch [n] = .ok { t with
        track_data := t.track_data ++ note_on_bytes t.delta_time ch n } ∧
      stop_NoteContainer t ch [n] = .ok { t with
        track_data := t.track_data ++ note_off_bytes t.delta_time ch n }) ∧
    (notesOk (n :: rest) → rest ≠ [] →
      play_NoteContainer t ch (n :: rest) = .ok { t with
        track_data := t.track_data ++ note_on_bytes t.delta_time ch n ++
          (rest.map (note_on_bytes [0] ch)).flatten,
        delta_time := [0] } ∧
      stop_NoteContainer t ch (n :: rest) = .ok { t with
        track_data := t.track_data ++ note_off_bytes t.delta_time ch n ++
          (rest.map (note_off_bytes [0] ch)).flatten,
        delta_time := [0] }) := by
  refine ⟨⟨rfl, rfl⟩, ?_, ?_⟩
  · intro hok
    constructor
    · rw [play_NoteContainer_ok t ch [n] hch hok]
      rfl
    · rw [stop_NoteContainer_ok t ch [n] hch hok]
      rfl
  · intro hok hne
    match rest with
    | [] => cases hne rfl
    | m :: rest2 =>
      constructor
      · rw [play_NoteContainer_ok t ch (n :: m :: rest2) hch hok]
        show Except.ok { t with
          track_data := t.track_data ++ (note_on_bytes t.delta_time ch n ++
            ((m :: rest2).map (note_on_bytes [0] ch)).flatten),
          delta_time := container_dt t.delta_time (n :: m :: rest2) } = _
        rw [← List.append_assoc]
        have hdt : container_dt t.delta_time (n :: m :: rest2) = [0] := by
          unfold container_dt
          rw [if_pos (by simp)]
        rw [hdt]
      · rw [stop_NoteContainer_ok t ch (n :: m :: rest2) hch hok]
        show Except.ok { t with
          track_data := t.track_data ++ (note_off_bytes t.delta_time ch n ++
            ((m :: rest2).map (note_off_bytes [0] ch)).flatten),
          delta_time := container_dt t.delta_time (n :: m :: rest2) } = _
        rw [← List.append_assoc]
        have hdt : container_dt t.delta_time (n :: m :: rest2) = [0] := by
          unfold container_dt
          rw [if_pos (by simp)]
        rw [hdt]

/-- Witness for C2: a two-note chord with pending delta-time `5`. -/
theorem C2_witness :
    play_NoteContainer ⟨[], [5], 0, 120⟩ 3 [⟨48, none⟩, ⟨50, some 100⟩] =
      .ok { track_data := [] ++ note_on_bytes [5] 3 ⟨48, none⟩ ++
              (([⟨50, some 100⟩] : List Note).map (note_on_bytes [0] 3)).flatten,
            delta_time := [0], delay := 0, bpm := 120 } :=
  ((C2_note_container_deltatime ⟨[], [5], 0, 120⟩ 3 ⟨48, none⟩
      [⟨50, some 100⟩] (by omega)).2.2 (by decide) (by simp)).1

/-! ### Bars -/

theorem play_beat_none (t : MidiTrack) (ch pos d : Nat) (hd : d ≠ 0) :
    play_beat t ch (pos, d, none) = .ok { t with delay := t.delay + tickOf d } := by
  unfold play_beat
  rw [if_neg hd]

theorem play_beat_empty (t : MidiTrack) (ch pos d : Nat) (hd : d ≠ 0) :
    play_beat t ch (pos, d, some []) =
      .ok { t with delay := t.delay + tickOf d } := by
  unfold play_beat
  rw [if_neg hd]
  rfl

theorem play_beat_notes (t : MidiTrack) (ch pos d : Nat) (nc : List Note)
    (hch : ch < 16) (hd : d ≠ 0) (hne : nc ≠ []) (hok : notesOk nc) :
    play_beat t ch (pos, d, some nc) = .ok { t with
      track_data := t.track_data ++
        container_on_bytes (int_to_varbyte t.delay) ch nc ++
        container_off_bytes (int_to_varbyte (tickOf d)) ch nc,
      delta_time := container_dt (int_to_varbyte (tickOf d)) nc,
      delay := 0 } := by
  unfold play_beat
  rw [if_neg hd]
  have hlen : ¬ (nc.length = 0) := by
    cases nc
    · cases hne rfl
    · simp
  show (if nc.length = 0 then Except.ok { t with delay := t.delay + tickOf d }
    else
      match play_NoteContainer
          { t with delta_time := int_to_varbyte t.delay, delay := 0 } ch nc with
      | .error e => Except.error e
      | .ok t3 =>
        stop_NoteContainer { t3 with delta_time := int_to_varbyte (tickOf d) }
          ch nc) = _
  rw [if_neg hlen,
    play_NoteContainer_ok { t with delta_time := int_to_varbyte t.delay, delay := 0 }
      ch nc hch hok]
  show stop_NoteContainer
    { t with
      track_data := t.track_data ++ container_on_bytes (int_to_varbyte t.delay) ch nc,
      delta_time := int_to_varbyte (tickOf d),
      delay := 0 } ch nc = _
  rw [stop_NoteContainer_ok _ ch nc hch hok]

/-- C3.  `play_Bar` walks the beats in order threading the state; each beat
contributes `tickOf d` ticks (the embedding of `int(round(1.0/d * 288))`);
a beat with an absent or empty note group only adds those ticks to the
accumulated `delay` and emits nothing; a beat with notes emits, in order,
the note-on events prefixed by the VLQ bytes of the accumulated delay
(resetting the delay), then the note-off events prefixed by the VLQ bytes
of the beat's ticks; a bar of one denominator-4 rest followed by one
denominator-4 note emits that note's note-on with delta-time
`tickOf 4 = 72`. -/
theorem C3_play_Bar_rest_accumulation (t : MidiTrack) (ch pos d : Nat)
    (x : Beat) (xs : List Beat) (nc : List Note) (hch : ch < 16)
    (hd : d ≠ 0) (hne : nc ≠ []) (hok : notesOk nc) :
    (play_Bar t ch [] = .ok t) ∧
    (play_Bar t ch (x :: xs) =
      match play_beat t ch x with
      | .error e => .error e
      | .ok t1 => play_Bar t1 ch xs) ∧
    (play_beat t ch (pos, d, none) =
      .ok { t with delay := t.delay + tickOf d }) ∧
    (play_beat t ch (pos, d, some []) =
      .ok { t with delay := t.delay + tickOf d }) ∧
    (play_beat t ch (pos, d, some nc) = .ok { t with
      track_data := t.track_data ++
        container_on_bytes (int_to_varbyte t.delay) ch nc ++
        container_off_bytes (int_to_varbyte (tickOf d)) ch nc,
      delta_time := container_dt (int_to_varbyte (tickOf d)) nc,
      delay := 0 }) ∧
    tickOf 4 = 72 ∧
    play_Bar ⟨[], [0x00], 0, 120⟩ 0 [(0, 4, none), (0, 4, some [⟨48, none⟩])] =
      .ok ⟨[72, 0x90, 60, 64, 72, 0x80, 60, 64], [72], 0, 120⟩ :=
  ⟨rfl, rfl, play_beat_none t ch pos d hd, play_beat_empty t ch pos d hd,
   play_beat_notes t ch pos d nc hch hd hne hok, rfl, by decide⟩

/-- Witness for C3 at concrete inputs. -/
theorem C3_witness :
    play_beat ⟨[], [0x00], 3, 120⟩ 0 (0, 8, none) =
      .ok ⟨[], [0x00], 3 + tickOf 8, 120⟩ ∧
    tickOf 4 = 72 :=
  ⟨(C3_play_Bar_rest_accumulation ⟨[], [0x00], 3, 120⟩ 0 0 8 (0, 4, none) []
      [⟨48, none⟩] (by omega) (by omega) (by simp) (by decide)).2.2.1,
   (C3_play_Bar_rest_accumulation ⟨[], [0x00], 3, 120⟩ 0 0 8 (0, 4, none) []
      [⟨48, none⟩] (by omega) (by omega) (by simp) (by decide)).2.2.2.2.2.1⟩

/-- C10.  `reset` empties `track_data`, sets `delta_time` to the single zero
byte, and changes nothing else — `delay` and `bpm` keep their values — so a
`play_Bar` call made after `reset` still emits its first note with the
delta-time of the delay accumulated before the reset. -/
theorem C10_reset_keeps_delay (t : MidiTrack) :
    reset t = { track_data := [], delta_time := [0x00],
                delay := t.delay, bpm := t.bpm } ∧
    play_Bar (reset t) 0 [(0, 4, some [⟨48, none⟩])] =
      .ok { track_data :=
              container_on_bytes (int_to_varbyte t.delay) 0 [⟨48, none⟩] ++
              container_off_bytes [72] 0 [⟨48, none⟩],
            delta_time := [72], delay := 0, bpm := t.bpm } := by
  refine ⟨rfl, ?_⟩
  show (match play_beat (reset t) 0 (0, 4, some [⟨48, none⟩]) with
    | .error e => Except.error e
    | .ok t1 => play_Bar t1 0 []) = _
  rw [play_beat_notes (reset t) 0 0 4 [⟨48, none⟩] (by omega) (by omega)
    (by simp) (by decide)]
  rfl

/-- C9 counterexample: a two-note container whose second note has an
out-of-byte-range pitch.  The call fails, yet the first note's event bytes
have already been appended to `track_data` — neither everything nor nothing
was appended, so conversion calls are not atomic. -/
theorem C9_counterexample :
    play_NoteContainer ⟨[], [0x00], 0, 120⟩ 0 [⟨48, none⟩, ⟨244, none⟩] =
      .error (.oddLengthHex, ⟨[0x00, 0x90, 60, 64], [0x00], 0, 120⟩) ∧
    ([0x00, 0x90, 60, 64] : List Nat) ≠ [] := by
  exact ⟨by decide, by simp⟩

/-- C9 amended.  A single event append is atomic (`play_Note` that fails
leaves the object exactly as it was), and a container call whose notes are
all in range succeeds and appends exactly its intended bytes; but a
container call that fails midway keeps the events appended before the
failure, as the counterexample shows. -/
theorem C9_success_appends_fully (t : MidiTrack) (ch : Nat) (n : Note)
    (nc : List Note) (hch : ch < 16) (hok : notesOk nc) :
    (∀ e t', play_Note t ch n = .error (e, t') → t' = t) ∧
    play_NoteContainer t ch nc = .ok { t with
      track_data := t.track_data ++ container_on_bytes t.delta_time ch nc,
      delta_time := container_dt t.delta_time nc } := by
  constructor
  · intro e t' h
    unfold play_Note at h
    cases hne : note_on t ch (n.pitch + 12) n.vel with
    | ok bs => rw [hne] at h; cases h
    | error e0 =>
      rw [hne] at h
      injection h with h
      exact (congrArg Prod.snd h).symm
  · exact play_NoteContainer_ok t ch nc hch hok

/-- Witness for the amended C9 at a concrete input. -/
theorem C9_witness :
    play_NoteContainer ⟨[7], [0x00], 0, 120⟩ 2 [⟨48, none⟩] =
      .ok { track_data := [7] ++ container_on_bytes [0x00] 2 [⟨48, none⟩],
            delta_time := container_dt [0x00] [⟨48, none⟩],
            delay := 0, bpm := 120 } :=
  (C9_success_appends_fully ⟨[7], [0x00], 0, 120⟩ 2 ⟨48, none⟩ [⟨48, none⟩]
    (by omega) (by decide)).2

/-- C8.  Evaluation of `play_Track` at a failing input for the claim: with
channel `1` and program number `5`, the code resets the delay and emits the
program-change correctly, but the bank-select event comes out as
`00 B0 01 01` — a controller event on channel `BANK_SELECT = 0` whose
`param1` is the *channel* (`1`) and `param2` the bank — because
`select_bank` passes `(BANK_SELECT, channel, bank)` into
`controller_event(channel, contr_nr, contr_val)`.  The claim (and standard
MIDI) expects `00 B1 00 01`: status `CONTROLLER * 16 + 1` with the
bank-select controller number as `param1`.  Without a program number no
bank-select or program-change event is emitted. -/
theorem C8_select_bank_swaps_channel :
    play_Track ⟨[], [0x00], 7, 120⟩ 1 ⟨some 5, []⟩ =
      .ok ⟨[0x00, 0xB0, 1, 1, 0x00, 0xC1, 5], [0x00], 0, 120⟩ ∧
    play_Track ⟨[], [0x00], 7, 120⟩ 1 ⟨none, []⟩ = .ok ⟨[], [0x00], 0, 120⟩ ∧
    (0xB0 : Nat) = CONTROLLER * 16 + BANK_SELECT ∧
    (0xB0 : Nat) ≠ CONTROLLER * 16 + 1 := by
  exact ⟨by decide, rfl, rfl, by decide⟩

/-! ### Chunk assembly -/

theorem padDigits_concat (b n : Nat) :
    ∀ k, padDigits b n (k + 1) = padDigits b (n / b) k ++ [n % b] := by
  intro k
  induction k with
  | zero =>
    show [n / b ^ 0 % b] = [] ++ [n % b]
    simp
  | succ k ih =>
    show n / b ^ (k + 1) % b :: padDigits b n (k + 1) = _
    rw [ih]
    show n / b ^ (k + 1) % b :: (padDigits b (n / b) k ++ [n % b]) = _
    rw [padDigits]
    have hdiv : n / b ^ (k + 1) = n / b / b ^ k := by
      rw [Nat.div_div_eq_div_mul, ← pow_succ']
    rw [hdiv]
    rfl

theorem padDigits_zero_val (b : Nat) : ∀ k, padDigits b 0 k = List.replicate k 0 := by
  intro k
  induction k with
  | zero => rfl
  | succ k ih => simp [padDigits, ih, List.replicate_succ]

theorem padDigits_length (b n : Nat) : ∀ k, (padDigits b n k).length = k := by
  intro k
  induction k with
  | zero => rfl
  | succ k ih => simp [padDigits, ih]

theorem hexPad_eq_padDigits :
    ∀ n k, 1 ≤ k → n < 16 ^ k → hexPad k n = padDigits 16 n k := by
  intro n
  induction n using Nat.strong_induction_on with
  | _ n ih =>
    intro k hk hn
    obtain ⟨m, rfl⟩ : ∃ m, k = m + 1 := ⟨k - 1, by omega⟩
    rcases Nat.eq_zero_or_pos n with rfl | hpos
    · show List.replicate (m + 1 - (hexStr 0).length) 0 ++ hexStr 0 = _
      have h0 : hexStr 0 = [0] := rfl
      rw [h0, padDigits_zero_val]
      show List.replicate m 0 ++ [0] = _
      rw [← List.replicate_succ' m 0]
    · rcases Nat.lt_or_ge n 16 with h16 | h16
      · show List.replicate (m + 1 - (hexStr n).length) 0 ++ hexStr n = _
        rw [hexStr_lt16 n h16, padDigits_concat,
          Nat.div_eq_of_lt h16, padDigits_zero_val, Nat.mod_eq_of_lt h16]
        rfl
      · have hq1 : 1 ≤ n / 16 := (Nat.one_le_div_iff (by omega)).mpr h16
        have hstep : hexStr n = hexStr (n / 16) ++ [n % 16] := by
          unfold hexStr
          rw [if_neg (by omega), if_neg (by omega),
            lsbDigits_eq 16 n (by omega) (by omega), List.reverse_cons]
        have hm1 : 1 ≤ m := by
          by_contra hcon
          have : m = 0 := by omega
          subst this
          simp at hn
          omega
        have hdivlt : n / 16 < 16 ^ m := by
          rw [Nat.div_lt_iff_lt_mul (by omega)]
          calc n < 16 ^ (m + 1) := hn
            _ = 16 ^ m * 16 := by rw [pow_succ]
        have := ih (n / 16) (Nat.div_lt_self hpos (by omega)) m hm1 hdivlt
        show List.replicate (m + 1 - (hexStr n).length) 0 ++ hexStr n = _
        rw [hstep, padDigits_concat, ← this]
        have harith : m + 1 - (hexStr (n / 16) ++ [n % 16]).length =
            m - (hexStr (n / 16)).length := by
          rw [List.length_append]
          simp
        rw [harith]
        unfold hexPad
        rw [← List.append_assoc]

theorem a2b_hex_even (s : List Nat) (h : s.length % 2 = 0) :
    a2b_hex s = .ok (pairUp s) := by
  unfold a2b_hex
  rw [if_pos h]

theorem pairUp_padDigits8 (m : Nat) :
    pairUp (padDigits 16 m 8) =
      [m / 16777216 % 256, m / 65536 % 256, m / 256 % 256, m % 256] := by
  have h : pairUp (padDigits 16 m 8) =
      [(m / 16 ^ 7 % 16) * 16 + m / 16 ^ 6 % 16,
       (m / 16 ^ 5 % 16) * 16 + m / 16 ^ 4 % 16,
       (m / 16 ^ 3 % 16) * 16 + m / 16 ^ 2 % 16,
       (m / 16 ^ 1 % 16) * 16 + m / 16 ^ 0 % 16] := rfl
  rw [h]
  norm_num
  refine ⟨?_, ?_, ?_, ?_⟩ <;> omega

/-- C4.  `get_midi_data` is exactly the 4-byte `MTrk` tag, a 4-byte
big-endian length field holding `N + 4` (`N` the body length, `4` the
length of the end-of-track marker), the `N` body bytes, and the fixed
end-of-track marker `00 FF 2F 00`. -/
theorem C4_get_midi_data_layout (t : MidiTrack)
    (h : t.track_data.length + 4 < 4294967296) :
    get_midi_data t = .ok (TRACK_HEADER ++
      [(t.track_data.length + 4) / 16777216 % 256,
       (t.track_data.length + 4) / 65536 % 256,
       (t.track_data.length + 4) / 256 % 256,
       (t.track_data.length + 4) % 256] ++
      t.track_data ++ end_of_track) ∧
    TRACK_HEADER = [77, 84, 114, 107] ∧
    end_of_track = [0x00, 0xFF, 0x2F, 0x00] := by
  refine ⟨?_, rfl, rfl⟩
  unfold get_midi_data header
  have hlen : t.track_data.length + end_of_track.length =
      t.track_data.length + 4 := rfl
  rw [hlen, hexPad_eq_padDigits (t.track_data.length + 4) 8 (by omega)
      (by norm_num; omega),
    a2b_hex_even _ (by rw [padDigits_length]),
    pairUp_padDigits8]

/-- Witness for C4 at a concrete 3-byte body. -/
theorem C4_witness :
    get_midi_data ⟨[1, 2, 3], [0x00], 0, 120⟩ =
      .ok [77, 84, 114, 107, 0, 0, 0, 7, 1, 2, 3, 0, 255, 47, 0] :=
  (C4_get_midi_data_layout ⟨[1, 2, 3], [0x00], 0, 120⟩ (by decide)).1

/-! ### Append-only behaviour of the conversion operations -/

theorem extends_of_eq {t t' : MidiTrack} (h : t'.track_data = t.track_data) :
    Extends t t' :=
  ⟨[], by rw [h, List.append_nil]⟩

theorem extends_trans {t1 t2 t3 : MidiTrack} (h1 : Extends t1 t2)
    (h2 : Extends t2 t3) : Extends t1 t3 := by
  obtain ⟨s1, h1⟩ := h1
  obtain ⟨s2, h2⟩ := h2
  exact ⟨s1 ++ s2, by rw [h2, h1, List.append_assoc]⟩

theorem ext_play_Note (t : MidiTrack) (ch : Nat) (n : Note) :
    Extends t (stateOf (play_Note t ch n)) := by
  unfold play_Note
  cases note_on t ch (n.pitch + 12) n.vel with
  | error e => exact extends_of_eq rfl
  | ok bs => exact ⟨bs, rfl⟩

theorem ext_stop_Note (t : MidiTrack) (ch : Nat) (n : Note) :
    Extends t (stateOf (stop_Note t ch n)) := by
  unfold stop_Note
  cases note_off t ch (n.pitch + 12) n.vel with
  | error e => exact extends_of_eq rfl
  | ok bs => exact ⟨bs, rfl⟩

theorem ext_play_Notes (ch : Nat) :
    ∀ (ns : List Note) (t : MidiTrack),
      Extends t (stateOf (play_Notes t ch ns)) := by
  intro ns
  induction ns with
  | nil => intro t; exact extends_of_eq rfl
  | cons n ns ih =>
    intro t
    show Extends t (stateOf (match play_Note t ch n with
      | .error e => .error e
      | .ok t1 => play_Notes t1 ch ns))
    have h1 := ext_play_Note t ch n
    cases hpn : play_Note t ch n with
    | error e =>
      rw [hpn] at h1
      exact h1
    | ok t1 =>
      rw [hpn] at h1
      exact extends_trans h1 (ih t1)

theorem ext_stop_Notes (ch : Nat) :
    ∀ (ns : List Note) (t : MidiTrack),
      Extends t (stateOf (stop_Notes t ch ns)) := by
  intro ns
  induction ns with
  | nil => intro t; exact extends_of_eq rfl
  | cons n ns ih =>
    intro t
    show Extends t (stateOf (match stop_Note t ch n with
      | .error e => .error e
      | .ok t1 => stop_Notes t1 ch ns))
    have h1 := ext_stop_Note t ch n
    cases hpn : stop_Note t ch n with
    | error e =>
      rw [hpn] at h1
      exact h1
    | ok t1 =>
      rw [hpn] at h1
      exact extends_trans h1 (ih t1)

theorem ext_play_NoteContainer (t : MidiTrack) (ch : Nat) (nc : List Note) :
    Extends t (stateOf (play_NoteContainer t ch nc)) := by
  unfold play_NoteContainer
  split
  · exact ext_play_Notes ch nc t
  · match nc with
    | [] => exact ext_play_Notes ch [] t
    | n :: rest =>
      show Extends t (stateOf (match play_Note t ch n with
        | .error e => .error e
        | .ok t1 => play_Notes (set_deltatime t1 (.int 0)) ch rest))
      have h1 := ext_play_Note t ch n
      cases hpn : play_Note t ch n with
      | error e =>
        rw [hpn] at h1
        exact h1
      | ok t1 =>
        rw [hpn] at h1
        exact extends_trans h1 (extends_trans (extends_of_eq rfl)
          (ext_play_Notes ch rest (set_deltatime t1 (.int 0))))

theorem ext_stop_NoteContainer (t : MidiTrack) (ch : Nat) (nc : List Note) :
    Extends t (stateOf (stop_NoteContainer t ch nc)) := by
  unfold stop_NoteContainer
  split
  · exact ext_stop_Notes ch nc t
  · match nc with
    | [] => exact ext_stop_Notes ch [] t
    | n :: rest =>
      show Extends t (stateOf (match stop_Note t ch n with
        | .error e => .error e
        | .ok t1 => stop_Notes (set_deltatime t1 (.int 0)) ch rest))
      have h1 := ext_stop_Note t ch n
      cases hpn : stop_Note t ch n with
      | error e =>
        rw [hpn] at h1
        exact h1
      | ok t1 =>
        rw [hpn] at h1
        exact extends_trans h1 (extends_trans (extends_of_eq rfl)
          (ext_stop_Notes ch rest (set_deltatime t1 (.int 0))))

theorem ext_play_beat (t : MidiTrack) (ch : Nat) (x : Beat) :
    Extends t (stateOf (play_beat t ch x)) := by
  unfold play_beat
  split
  · exact extends_of_eq rfl
  · cases hnc : x.2.2 with
    | none => exact extends_of_eq rfl
    | some nc =>
      show Extends t (stateOf (if nc.length = 0 then _ else _))
      split
      · exact extends_of_eq rfl
      · show Extends t (stateOf (match play_NoteContainer
            { t with delta_time := int_to_varbyte t.delay, delay := 0 } ch nc with
          | .error e => Except.error e
          | .ok t3 => stop_NoteContainer
              { t3 with delta_time := int_to_varbyte (tickOf x.2.1) } ch nc))
        have h1 : Extends t
            { t with delta_time := int_to_varbyte t.delay, delay := 0 } :=
          extends_of_eq rfl
        have h2 := ext_play_NoteContainer
          { t with delta_time := int_to_varbyte t.delay, delay := 0 } ch nc
        cases hc : play_NoteContainer
            { t with delta_time := int_to_varbyte t.delay, delay := 0 } ch nc with
        | error e =>
          rw [hc] at h2
          exact extends_trans h1 h2
        | ok t3 =>
          rw [hc] at h2
          refine extends_trans h1 (extends_trans h2 (extends_trans
            (extends_of_eq rfl)
            (ext_stop_NoteContainer
              { t3 with delta_time := int_to_varbyte (tickOf x.2.1) } ch nc)))

theorem ext_play_Bar (ch : Nat) :
    ∀ (bar : List Beat) (t : MidiTrack),
      Extends t (stateOf (play_Bar t ch bar)) := by
  intro bar
  induction bar with
  | nil => intro t; exact extends_of_eq rfl
  | cons x xs ih =>
    intro t
    show Extends t (stateOf (match play_beat t ch x with
      | .error e => .error e
      | .ok t1 => play_Bar t1 ch xs))
    have h1 := ext_play_beat t ch x
    cases hpb : play_beat t ch x with
    | error e =>
      rw [hpb] at h1
      exact h1
    | ok t1 =>
      rw [hpb] at h1
      exact extends_trans h1 (ih t1)

theorem ext_set_instrument (t : MidiTrack) (ch instr bank : Nat) :
    Extends t (stateOf (set_instrument t ch instr bank)) := by
  unfold set_instrument
  cases select_bank t ch bank with
  | error e => exact extends_of_eq rfl
  | ok b1 =>
    show Extends t (stateOf (match program_change_event
        { t with track_data := t.track_data ++ b1 } ch instr with
      | .error e =>
        Except.error (e, { t with track_data := t.track_data ++ b1 })
      | .ok b2 =>
        Except.ok { t with track_data := (t.track_data ++ b1) ++ b2 }))
    cases program_change_event
        { t with track_data := t.track_data ++ b1 } ch instr with
    | error e => exact ⟨b1, rfl⟩
    | ok b2 =>
      refine ⟨b1 ++ b2, ?_⟩
      show t.track_data ++ b1 ++ b2 = t.track_data ++ (b1 ++ b2)
      rw [List.append_assoc]

theorem ext_play_Bars (ch : Nat) :
    ∀ (bars : List (List Beat)) (t : MidiTrack),
      Extends t (stateOf (play_Bars t ch bars)) := by
  intro bars
  induction bars with
  | nil => intro t; exact extends_of_eq rfl
  | cons b bs ih =>
    intro t
    show Extends t (stateOf (match play_Bar t ch b with
      | .error e => .error e
      | .ok t1 => play_Bars t1 ch bs))
    have h1 := ext_play_Bar ch b t
    cases hpb : play_Bar t ch b with
    | error e =>
      rw [hpb] at h1
      exact h1
    | ok t1 =>
      rw [hpb] at h1
      exact extends_trans h1 (ih t1)

theorem ext_play_Track (t : MidiTrack) (ch : Nat) (tr : Track) :
    Extends t (stateOf (play_Track t ch tr)) := by
  unfold play_Track
  have h0 : Extends t { t with delay := 0 } := extends_of_eq rfl
  cases hins : tr.instrument with
  | none =>
    show Extends t (stateOf (play_Bars { t with delay := 0 } ch tr.bars))
    exact extends_trans h0 (ext_play_Bars ch tr.bars { t with delay := 0 })
  | some nr =>
    show Extends t (stateOf
      (match set_instrument { t with delay := 0 } ch nr 1 with
      | .error e => Except.error e
      | .ok t1 => play_Bars t1 ch tr.bars))
    have h1 := ext_set_instrument { t with delay := 0 } ch nr 1
    cases hsi : set_instrument { t with delay := 0 } ch nr 1 with
    | error e =>
      rw [hsi] at h1
      exact extends_trans h0 h1
    | ok t1 =>
      rw [hsi] at h1
      exact extends_trans h0 (extends_trans h1 (ext_play_Bars ch tr.bars t1))

theorem ext_set_tempo (t : MidiTrack) (bpm : Nat) :
    Extends t (stateOf (set_tempo t bpm)) := by
  show Extends t (stateOf
    (match set_tempo_event { t with bpm := bpm } bpm with
    | .error e => Except.error (e, { t with bpm := bpm })
    | .ok b =>
      Except.ok { t with bpm := bpm, track_data := t.track_data ++ b }))
  cases set_tempo_event { t with bpm := bpm } bpm with
  | error e => exact extends_of_eq rfl
  | ok b => exact ⟨b, rfl⟩

theorem startsWithTempo_extends {t t' : MidiTrack} (h : Extends t t')
    (hs : startsWithTempo t.track_data) : startsWithTempo t'.track_data := by
  obtain ⟨s, h2⟩ := h
  rw [h2]
  have hlen : 7 ≤ t.track_data.length := by
    have hl := congrArg List.length hs
    rw [List.length_take] at hl
    simp at hl
    omega
  show (t.track_data ++ s).take 7 = _
  rw [List.take_append_eq_append_take]
  have h7 : 7 - t.track_data.length = 0 := by omega
  rw [h7, List.take_zero, List.append_nil]
  exact hs

/-- C7.  Constructing the encoder with `bpm = 120` makes `track_data` exactly
the tempo meta event `00 FF 51 03 07 A1 20` (`500000 = 60000000 / 120`
microseconds per quarter note in 3 big-endian bytes); every conversion,
instrument or tempo operation only appends to the buffer, so the buffer
keeps starting with that one tempo event — with the exception of `reset`,
which empties the buffer (the counterexample), so the claim's "after every
subsequent operation" does not hold as stated. -/
theorem C7_tempo_event_starts_buffer :
    (init 120 = .ok ⟨[0x00, 0xFF, 0x51, 0x03, 0x07, 0xA1, 0x20],
        [0x00], 0, 120⟩) ∧
    (∀ t ch n, startsWithTempo t.track_data →
      startsWithTempo (stateOf (play_Note t ch n)).track_data) ∧
    (∀ t ch nc, startsWithTempo t.track_data →
      startsWithTempo (stateOf (play_NoteContainer t ch nc)).track_data) ∧
    (∀ t ch nc, startsWithTempo t.track_data →
      startsWithTempo (stateOf (stop_NoteContainer t ch nc)).track_data) ∧
    (∀ t ch bar, startsWithTempo t.track_data →
      startsWithTempo (stateOf (play_Bar t ch bar)).track_data) ∧
    (∀ t ch tr, startsWithTempo t.track_data →
      startsWithTempo (stateOf (play_Track t ch tr)).track_data) ∧
    (∀ t ch instr bank, startsWithTempo t.track_data →
      startsWithTempo (stateOf (set_instrument t ch instr bank)).track_data) ∧
    (∀ t bpm, startsWithTempo t.track_data →
      startsWithTempo (stateOf (set_tempo t bpm)).track_data) ∧
    (∀ t d, (set_deltatime t d).track_data = t.track_data) :=
  ⟨rfl,
   fun t ch n hs => startsWithTempo_extends (ext_play_Note t ch n) hs,
   fun t ch nc hs => startsWithTempo_extends (ext_play_NoteContainer t ch nc) hs,
   fun t ch nc hs => startsWithTempo_extends (ext_stop_NoteContainer t ch nc) hs,
   fun t ch bar hs => startsWithTempo_extends (ext_play_Bar ch bar t) hs,
   fun t ch tr hs => startsWithTempo_extends (ext_play_Track t ch tr) hs,
   fun t ch instr bank hs =>
     startsWithTempo_extends (ext_set_instrument t ch instr bank) hs,
   fun t bpm hs => startsWithTempo_extends (ext_set_tempo t bpm) hs,
   fun t d => by cases d <;> rfl⟩

/-- C7 counterexample: `reset` is an operation on the encoder after which
the buffer no longer begins with a tempo event — it is empty. -/
theorem C7_counterexample :
    (reset ⟨[0x00, 0xFF, 0x51, 0x03, 0x07, 0xA1, 0x20],
        [0x00], 0, 120⟩).track_data = [] ∧
    ¬ startsWithTempo (reset ⟨[0x00, 0xFF, 0x51, 0x03, 0x07, 0xA1, 0x20],
        [0x00], 0, 120⟩).track_data := by
  exact ⟨rfl, by decide⟩

/-- Witness for C7: the tempo prefix survives a concrete `play_Note`. -/
theorem C7_witness :
    startsWithTempo (stateOf (play_Note
      ⟨[0x00, 0xFF, 0x51, 0x03, 0x07, 0xA1, 0x20], [0x00], 0, 120⟩
      0 ⟨48, none⟩)).track_data :=
  C7_tempo_event_starts_buffer.2.1
    ⟨[0x00, 0xFF, 0x51, 0x03, 0x07, 0xA1, 0x20], [0x00], 0, 120⟩
    0 ⟨48, none⟩ (by decide)

end Mingus
